import Mathlib

/-!
# Verification of the entity canonicalization and fuzzy-merge subsystem

A shallow embedding, in Lean 4, of the core of the `unsealed_networks`
entity-merge pipeline:

* `database/entity_loader.py` — `normalize_entity_text`
* `database/merge_finder.py` — `calculate_jaccard_similarity`,
  `calculate_merge_confidence`, `find_merge_candidates`,
  `generate_merge_report` (the three confidence tiers)
* `database/canonical.py` — `initialize_canonical_entities`, `merge_entities`
* `database/auto_merge.py` / `database/llm_review.py` — source/target
  selection, the oracle fail-safe in `ask_llm_merge_decision`, and the
  review batch loop

Python strings are modelled as `List Char` (for the character-level text
functions) or `String` (for opaque fields), Python ints as `ℤ` / `ℕ`, and
Python floats as exact rationals (`ℚ`).  The program computes in IEEE
doubles, so the rational model can differ from the program by one ulp
(e.g. the double `0.95 - 0.15` is `0.7999999999999999`, just below the
rational `0.80`); therefore every numeric fact asserted below about the
scorer is double-robust — either a strict inequality with slack far
exceeding double rounding error, or a value at which the double
computation is exact (`0.5 - 0.15 = 0.35`, `0.85 + 0.05 = 0.9`,
`0.95 + 0.05 = 1.0`, `1.0 - 0.15 = 0.85`).  The SQLite tables are
modelled as lists of rows, and each SQL statement of `merge_entities` as
the corresponding list transformation, in statement order.
-/

namespace UnsealedNetworks

/-! ## Text utilities (entity_loader.py, merge_finder.py) -/

/-- Splitter underlying Python `str.split()` with no arguments: cut at runs
of whitespace, dropping empty pieces.  `acc` holds the reversed current
word. -/
def splitWordsAux : List Char → List Char → List (List Char)
  | [], acc => if acc.isEmpty then [] else [acc.reverse]
  | c :: rest, acc =>
      if c.isWhitespace then
        if acc.isEmpty then splitWordsAux rest [] else acc.reverse :: splitWordsAux rest []
      else
        splitWordsAux rest (c :: acc)

/-- Python `text.split()` (no arguments): whitespace-delimited words. -/
def splitWords (t : List Char) : List (List Char) :=
  splitWordsAux t []

/-- Python `" ".join(text.split())`: collapse whitespace runs to single
spaces and strip ends. -/
def collapseWhitespace (t : List Char) : List Char :=
  List.intercalate [' '] (splitWords t)

/-- Python `str.lower()`; the corpus is ASCII, where `Char.toLower` agrees
with Python. -/
def lowerChars (t : List Char) : List Char :=
  t.map Char.toLower

/-- Python `str.replace(c, "")` for a single-character pattern: every
occurrence of `c` is removed. -/
def removeChar (c : Char) (t : List Char) : List Char :=
  t.filter (fun x => x ≠ c)

/-- Embeds `entity_loader.normalize_entity_text`: collapse whitespace,
lowercase, and for `person`/`organization` remove `.` then `,` (the code
keeps apostrophes and all other punctuation). -/
def normalize_entity_text (text : List Char) (entity_type : String) : List Char :=
  let normalized := collapseWhitespace text
  let normalized := lowerChars normalized
  if entity_type = "person" ∨ entity_type = "organization" then
    removeChar ',' (removeChar '.' normalized)
  else
    normalized

/-- The deduplicated word list of `text.lower().split()`, modelling the
Python `set` of tokens. -/
def tokenSet (t : List Char) : List (List Char) :=
  (splitWords (lowerChars t)).dedup

/-- Embeds `merge_finder.calculate_jaccard_similarity`: token-set Jaccard
ratio of the two texts. -/
def calculate_jaccard_similarity (text1 text2 : List Char) : ℚ :=
  let tokens1 := tokenSet text1
  let tokens2 := tokenSet text2
  if tokens1.isEmpty ∨ tokens2.isEmpty then 0
  else
    let intersection := (tokens1.filter (fun w => w ∈ tokens2)).length
    let union := (tokens1 ++ tokens2.filter (fun w => w ∉ tokens1)).length
    if union > 0 then (intersection : ℚ) / (union : ℚ) else 0

/-- One inner step of the Levenshtein dynamic program: given the previous
row fragment (with `diag` the entry diagonally above-left and `cur` the
entry just computed to the left), produce the rest of the new row. -/
def levRowAux (a : Char) : List Char → ℕ → ℕ → List ℕ → List ℕ
  | [], _, _, _ => []
  | _ :: _, _, _, [] => []
  | b :: t, diag, cur, p :: ps =>
      let c := if a = b then diag else 1 + min diag (min p cur)
      c :: levRowAux a t p c ps

/-- One full row of the Levenshtein dynamic program for source character
`a`, from the previous row `prev`. -/
def levRow (a : Char) (t : List Char) (prev : List ℕ) : List ℕ :=
  match prev with
  | [] => []
  | p :: ps => (p + 1) :: levRowAux a t p (p + 1) ps

/-- Embeds `Levenshtein.distance` (the C extension used by
`merge_finder.py`): classical unit-cost edit distance via the row-by-row
dynamic program. -/
def levenshtein_distance (s t : List Char) : ℕ :=
  (s.foldl (fun prev a => levRow a t prev) (List.range (t.length + 1))).getLastD 0

/-- Python `f"{q:.0%}"` as used in the scorer's reason strings (percent,
no decimals). -/
def fmtPct (q : ℚ) : String :=
  toString (round (q * 100)) ++ "%"

/-- Embeds `merge_finder.calculate_merge_confidence`.  The sequential
mutation of `confidence` / `reasons` in the Python body becomes a chain of
`let`-bound pairs, one per `if` block, in source order.  `text1`/`text2`
are accepted (as in the source) but never read.

Arithmetic caveat: the program adds and subtracts IEEE doubles while this
embedding computes exactly in `ℚ`; the two can differ by one ulp (the
program's `0.95 - 0.15` is `0.7999999999999999`, one ulp below this
model's `0.80`).  Accordingly, no theorem in this file asserts the exact
value of that path or an `0.80 ≤` bound on it: the facts proved about
this function are restricted to ones that also hold of the double
computation (inequalities with slack, or paths whose double arithmetic is
exact). -/
def calculate_merge_confidence (text1 text2 : List Char) (count1 count2 : ℤ)
    (lev_distance : ℕ) (jaccard : ℚ) : ℚ × String :=
  if lev_distance = 0 then
    (1, "Exact match (different case)")
  else
    let step0 : ℚ × List String :=
      if lev_distance = 1 then (0.95, ["Edit distance=1 (likely typo)"])
      else if lev_distance = 2 then (0.85, ["Edit distance=2 (possible typo)"])
      else if lev_distance = 3 then (0.70, ["Edit distance=3"])
      else (0.50, ["Edit distance=" ++ toString lev_distance])
    let step1 : ℚ × List String :=
      if jaccard ≥ 0.8 then
        (step0.1 + 0.10, step0.2 ++ ["High token overlap (" ++ fmtPct jaccard ++ ")"])
      else if jaccard ≥ 0.5 then
        (step0.1 + 0.05, step0.2 ++ ["Good token overlap (" ++ fmtPct jaccard ++ ")"])
      else step0
    let step2 : ℚ × List String :=
      if count1 + count2 > 0 ∧
          ((min count1 count2 : ℤ) : ℚ) / ((max count1 count2 : ℤ) : ℚ) < 0.1 ∧
          max count1 count2 > 10 then
        (step1.1 + 0.05,
         step1.2 ++ ["Rare variant (" ++ toString (min count1 count2) ++ " vs " ++
                     toString (max count1 count2) ++ ")"])
      else step1
    let step3 : ℚ × List String :=
      if jaccard < 0.3 then
        (step2.1 - 0.15, step2.2 ++ ["Low token overlap (" ++ fmtPct jaccard ++ ")"])
      else step2
    (min step3.1 1, String.intercalate "; " step3.2)

/-! ## Data model (schema.py tables used by the merge subsystem) -/

/-- A row of the `entities` table (the columns read by the merge code). -/
structure EntityRow where
  entity_id : ℕ
  text : String
  type : String
  normalized_text : String
  occurrence_count : ℤ
deriving DecidableEq

/-- A row of the `canonical_entities` table (timestamps omitted: the code
only ever writes `CURRENT_TIMESTAMP` into them and never reads them). -/
structure CanonicalRow where
  canonical_id : ℕ
  entity_type : String
  canonical_text : String
  canonical_normalized : String
  total_mentions : ℤ
deriving DecidableEq

/-- A row of the `entity_aliases` table (again without the timestamp). -/
structure AliasRow where
  entity_id : ℕ
  canonical_id : ℕ
  is_canonical : Bool
  merge_method : String
  merge_confidence : ℚ
  merged_by : String
deriving DecidableEq

/-- The SQLite database as seen by the canonicalization code. -/
structure DB where
  entities : List EntityRow
  canonical_entities : List CanonicalRow
  entity_aliases : List AliasRow
deriving DecidableEq

/-! ## canonical.py: initialization and merge execution -/

/-- The `canonical_entities` rows created by
`initialize_canonical_entities`, with `lastrowid` starting at `k`:
one canonical per entity carrying its text and occurrence count. -/
def initCanonAux : ℕ → List EntityRow → List CanonicalRow
  | _, [] => []
  | k, e :: es =>
      { canonical_id := k, entity_type := e.type, canonical_text := e.text,
        canonical_normalized := e.normalized_text,
        total_mentions := e.occurrence_count } :: initCanonAux (k + 1) es

/-- The `entity_aliases` rows created by `initialize_canonical_entities`:
each entity is its own canonical form initially. -/
def initAliasAux : ℕ → List EntityRow → List AliasRow
  | _, [] => []
  | k, e :: es =>
      { entity_id := e.entity_id, canonical_id := k, is_canonical := true,
        merge_method := "initial", merge_confidence := 1,
        merged_by := "system" } :: initAliasAux (k + 1) es

/-- Embeds `canonical.initialize_canonical_entities` on a fresh database:
a 1:1 canonical entity and alias per entity, with autoincremented
canonical ids starting at 1. -/
def initialize_canonical_entities (entities : List EntityRow) : DB :=
  { entities := entities,
    canonical_entities := initCanonAux 1 entities,
    entity_aliases := initAliasAux 1 entities }

/-- Outcome of `merge_entities`:
* `notFound` — the `raise ValueError` path (the spec's `NotFoundError`);
* `alreadyMerged` — the dict `{"status": "already_merged", ...}`;
* `entityRowFetchFailed` — the uncaught `TypeError` when the source
  entity has an alias but no `entities` row; the alias `UPDATE` has
  already executed when the `None` row is dereferenced;
* `merged` — the dict `{"status": "merged", ...}`. -/
inductive MergeResult where
  | notFound (message : String)
  | alreadyMerged
  | entityRowFetchFailed
  | merged (source_canonical_id target_canonical_id : ℕ)
      (orphaned_canonical_deleted : Bool)
deriving DecidableEq

/-- The alias `UPDATE` of `merge_entities`: rewrite the (unique) alias row
of `source_entity_id` to point at the target canonical. -/
def updateAliasRow (aliases : List AliasRow) (source_entity_id target_canonical_id : ℕ)
    (method : String) (confidence : ℚ) (merged_by : String) : List AliasRow :=
  aliases.map fun a =>
    if a.entity_id = source_entity_id then
      { a with canonical_id := target_canonical_id, is_canonical := false,
               merge_method := method, merge_confidence := confidence,
               merged_by := merged_by }
    else a

/-- Embeds `canonical.merge_entities`, one SQL statement per step in
source order: look up the source alias, short-circuit on idempotence,
fetch the source occurrence count, rewrite the alias, add the count to
the target canonical's `total_mentions`, subtract it from the source
canonical's, and delete the source canonical when no alias points to it
any more. -/
def merge_entities (db : DB) (source_entity_id target_canonical_id : ℕ)
    (method : String := "manual") (confidence : ℚ := 1)
    (merged_by : String := "user") : DB × MergeResult :=
  match db.entity_aliases.find? (fun a => a.entity_id == source_entity_id) with
  | none =>
      (db, .notFound ("Entity " ++ toString source_entity_id ++ " not found in aliases table"))
  | some current =>
      let source_canonical_id := current.canonical_id
      if source_canonical_id = target_canonical_id then
        (db, .alreadyMerged)
      else
        match db.entities.find? (fun e => e.entity_id == source_entity_id) with
        | none =>
            let aliases :=
              updateAliasRow db.entity_aliases source_entity_id target_canonical_id
                method confidence merged_by
            ({ db with entity_aliases := aliases }, .entityRowFetchFailed)
        | some source_entity =>
            let occ := source_entity.occurrence_count
            let aliases :=
              updateAliasRow db.entity_aliases source_entity_id target_canonical_id
                method confidence merged_by
            let canon1 := db.canonical_entities.map fun c =>
              if c.canonical_id = target_canonical_id then
                { c with total_mentions := c.total_mentions + occ }
              else c
            let canon2 := canon1.map fun c =>
              if c.canonical_id = source_canonical_id then
                { c with total_mentions := c.total_mentions - occ }
              else c
            let remaining := (aliases.filter (fun a => a.canonical_id == source_canonical_id)).length
            let canon3 :=
              if remaining = 0 then
                canon2.filter (fun c => c.canonical_id != source_canonical_id)
              else canon2
            ({ db with canonical_entities := canon3, entity_aliases := aliases },
             .merged source_canonical_id target_canonical_id (remaining == 0))

/-- Arguments of one `merge_entities` call. -/
structure MergeCall where
  source_entity_id : ℕ
  target_canonical_id : ℕ
  method : String
  confidence : ℚ
  merged_by : String
deriving DecidableEq

/-- Run a sequence of `merge_entities` calls, threading the database. -/
def applyMerges (db : DB) : List MergeCall → DB
  | [] => db
  | c :: cs =>
      applyMerges (merge_entities db c.source_entity_id c.target_canonical_id
        c.method c.confidence c.merged_by).1 cs

/-- `true` when every call of the sequence names a target canonical id
that is live in the database at the moment the call executes. -/
def validTargets (db : DB) : List MergeCall → Bool
  | [] => true
  | c :: cs =>
      (db.canonical_entities.map (fun x => x.canonical_id)).contains c.target_canonical_id &&
      validTargets (merge_entities db c.source_entity_id c.target_canonical_id
        c.method c.confidence c.merged_by).1 cs

/-! ## Measures for the conservation invariant (spec §3, §8) -/

/-- Sum of `occurrence_count` over all entities. -/
def occurrenceSum (db : DB) : ℤ :=
  (db.entities.map (fun e => e.occurrence_count)).sum

/-- Sum of `total_mentions` over all live canonical entities. -/
def liveMentionSum (db : DB) : ℤ :=
  (db.canonical_entities.map (fun c => c.total_mentions)).sum

/-- The occurrence count recorded for entity `eid` (0 if absent). -/
def occOf (db : DB) (eid : ℕ) : ℤ :=
  match db.entities.find? (fun e => e.entity_id == eid) with
  | some e => e.occurrence_count
  | none => 0

/-- Sum of `occurrence_count` over the entities currently aliased to
canonical `cid` — the quantity `total_mentions` is specified to track. -/
def mentionSum (db : DB) (cid : ℕ) : ℤ :=
  ((db.entity_aliases.filter (fun a => a.canonical_id == cid)).map
    (fun a => occOf db a.entity_id)).sum

/-- `mentionSum` generalized to an arbitrary alias list (the entity table
of `db` supplies the occurrence counts). -/
def aliasOccSum (db : DB) (as : List AliasRow) (cid : ℕ) : ℤ :=
  ((as.filter (fun a => a.canonical_id == cid)).map
    (fun a => occOf db a.entity_id)).sum

/-! ## merge_finder.py: blocking candidate finder and report tiers -/

/-- The dataclass `MergeCandidate`. -/
structure MergeCandidate where
  entity1_id : ℕ
  entity1_text : String
  entity1_count : ℤ
  entity2_id : ℕ
  entity2_text : String
  entity2_count : ℤ
  levenshtein_distance : ℕ
  jaccard_similarity : ℚ
  confidence : ℚ
  reason : String
deriving DecidableEq

/-- Stable insert of `x` into `l` with respect to the Boolean comparison
`le`: `x` goes in front of the first element it is `le`-related to. -/
def insertOrdered (le : α → α → Bool) (x : α) : List α → List α
  | [] => [x]
  | y :: ys => if le x y then x :: y :: ys else y :: insertOrdered le x ys

/-- Stable insertion sort (both `list.sort` in Python and SQL `ORDER BY`
only promise an ordering; ties are resolved stably here). -/
def sortBy (le : α → α → Bool) (l : List α) : List α :=
  l.foldr (insertOrdered le) []

/-- `SUBSTR(normalized_text, 1, 3)`: the blocking key. -/
def blockKey (e : EntityRow) : String :=
  e.normalized_text.take 3

/-- The SQL `WHERE` clause of `find_merge_candidates`: entities of the
requested type, frequent enough, whose alias row still has
`is_canonical = 1` (each entity has exactly one alias row, so the join
contributes at most one match). -/
def selectCandidateRows (db : DB) (entity_type : String) (min_occurrences : ℤ) :
    List EntityRow :=
  db.entities.filter fun e =>
    e.type == entity_type && min_occurrences ≤ e.occurrence_count &&
    db.entity_aliases.any (fun a => a.entity_id == e.entity_id && a.is_canonical)

/-- The SQL `ORDER BY prefix, occurrence_count DESC` (stable sort; SQLite
leaves ties unspecified, which no proved property depends on). -/
def orderRows (rows : List EntityRow) : List EntityRow :=
  sortBy (fun a b =>
    if blockKey a = blockKey b then b.occurrence_count ≤ a.occurrence_count
    else blockKey a < blockKey b) rows

/-- Append one entity to the bucket of its blocking key, creating the
bucket on first sight — the `blocks` dict built in the Python loop. -/
def addToBlocks (blocks : List (String × List EntityRow)) (e : EntityRow) :
    List (String × List EntityRow) :=
  match blocks with
  | [] => [(blockKey e, [e])]
  | (k, b) :: rest =>
      if k = blockKey e then (k, b ++ [e]) :: rest
      else (k, b) :: addToBlocks rest e

/-- Group the selected rows by blocking key, in encounter order. -/
def buildBlocks (rows : List EntityRow) : List (String × List EntityRow) :=
  rows.foldl addToBlocks []

/-- Every unordered pair of a block, visited once (`i < j` in the nested
loop). -/
def pairsWithin : List EntityRow → List (EntityRow × EntityRow)
  | [] => []
  | x :: xs => xs.map (fun y => (x, y)) ++ pairsWithin xs

/-- All comparisons the finder performs: pairs within a block only. -/
def comparedPairs (db : DB) (entity_type : String) (min_occurrences : ℤ) :
    List (EntityRow × EntityRow) :=
  (buildBlocks (orderRows (selectCandidateRows db entity_type min_occurrences))).flatMap
    fun kb => pairsWithin kb.2

/-- The body of the inner comparison loop: the three short-circuit filters
(length difference, zero Jaccard, Levenshtein bound), then scoring, then
the `min_confidence` cut. -/
def candidateOfPair (max_distance : ℕ) (min_confidence : ℚ)
    (p : EntityRow × EntityRow) : Option MergeCandidate :=
  let e1 := p.1
  let e2 := p.2
  let len_diff := ((e1.normalized_text.length : ℤ) - (e2.normalized_text.length : ℤ)).natAbs
  if len_diff > max_distance then none
  else
    let jaccard := calculate_jaccard_similarity e1.normalized_text.toList e2.normalized_text.toList
    if jaccard = 0 then none
    else
      let lev := levenshtein_distance e1.normalized_text.toList e2.normalized_text.toList
      if lev > max_distance then none
      else
        let scored := calculate_merge_confidence e1.text.toList e2.text.toList
          e1.occurrence_count e2.occurrence_count lev jaccard
        if scored.1 ≥ min_confidence then
          some { entity1_id := e1.entity_id, entity1_text := e1.text,
                 entity1_count := e1.occurrence_count,
                 entity2_id := e2.entity_id, entity2_text := e2.text,
                 entity2_count := e2.occurrence_count,
                 levenshtein_distance := lev, jaccard_similarity := jaccard,
                 confidence := scored.1, reason := scored.2 }
        else none

/-- Embeds `merge_finder.find_merge_candidates`: block, compare within
blocks, score, keep the confident pairs, sort by confidence descending,
truncate. -/
def find_merge_candidates (db : DB) (entity_type : String := "person")
    (min_occurrences : ℤ := 5) (max_distance : ℕ := 3)
    (min_confidence : ℚ := 0.70) (limit : ℕ := 100) : List MergeCandidate :=
  let cands := (comparedPairs db entity_type min_occurrences).filterMap
    (candidateOfPair max_distance min_confidence)
  (sortBy (fun c d => d.confidence ≤ c.confidence) cands).take limit

/-- The `auto_merge` band of `generate_merge_report`. -/
def autoMergeTier (candidates : List MergeCandidate) : List MergeCandidate :=
  candidates.filter fun c => decide (c.confidence ≥ 0.95)

/-- The `llm_review` band of `generate_merge_report`. -/
def llmReviewTier (candidates : List MergeCandidate) : List MergeCandidate :=
  candidates.filter fun c => decide (0.80 ≤ c.confidence ∧ c.confidence < 0.95)

/-- The `manual_review` band of `generate_merge_report`. -/
def manualReviewTier (candidates : List MergeCandidate) : List MergeCandidate :=
  candidates.filter fun c => decide (0.70 ≤ c.confidence ∧ c.confidence < 0.80)

/-! ## auto_merge.py and llm_review.py: review routing and the oracle -/

/-- The `{"id", "text", "count"}` dicts a saved candidate carries for each
entity. -/
structure CandEntityRef where
  id : ℕ
  text : String
  count : ℤ
deriving DecidableEq

/-- A candidate as re-loaded from the report JSON by the batch scripts. -/
structure LoadedCandidate where
  entity1 : CandEntityRef
  entity2 : CandEntityRef
  confidence : ℚ
  reason : String
deriving DecidableEq

/-- Source/target choice of `batch_auto_merge` (auto tier): the entity
with `e1["count"] >= e2["count"]` keeps its cluster, the other becomes the
merge source.  Returns `(source, target)`. -/
def autoMergeSourceTarget (e1 e2 : CandEntityRef) : CandEntityRef × CandEntityRef :=
  if e1.count ≥ e2.count then (e2, e1) else (e1, e2)

/-- The identical source/target choice of `batch_llm_review` (oracle
tier). -/
def llmReviewSourceTarget (e1 e2 : CandEntityRef) : CandEntityRef × CandEntityRef :=
  if e1.count ≥ e2.count then (e2, e1) else (e1, e2)

/-- The oracle's parsed decision dict. -/
structure LLMDecision where
  should_merge : Bool
  reasoning : String
  confidence : ℚ
deriving DecidableEq

/-- Embeds the error handling of `llm_review.ask_llm_merge_decision`.  The
whole effectful `try`-block — HTTP POST, `raise_for_status`, body decode,
`json.loads` of the model text — is abstracted as one `Except` argument:
`.ok d` is a successfully parsed decision, `.error e` is any raised
exception (network error, timeout, non-2xx status, malformed/non-JSON
response).  The `except` clause turns every exception into a rejecting
decision with zero confidence and the error as reasoning. -/
def ask_llm_merge_decision (outcome : Except String LLMDecision) : LLMDecision :=
  match outcome with
  | .ok decision => decision
  | .error e => { should_merge := false, reasoning := "Error: " ++ e, confidence := 0 }

/-- The counters `batch_llm_review` accumulates (its `decisions` log is
omitted; nothing reads it back). -/
structure ReviewStats where
  total_candidates : ℕ
  reviewed : ℕ
  approved : ℕ
  rejected : ℕ
  merged : ℕ
  errors : ℕ
deriving DecidableEq

/-- One iteration of the `batch_llm_review` loop: consult the oracle
(`oracle c` supplies the outcome of the external call for candidate `c`),
count the review, and either execute the merge through `merge_entities`
(target canonical looked up from the alias of the higher-count entity) or
count a rejection.  Failed merges and missing target aliases land in
`errors`, exactly as the `try/except` does. -/
def batchLLMReviewStep (oracle : LoadedCandidate → Except String LLMDecision)
    (model : String) (dry_run : Bool) (s : DB × ReviewStats) (c : LoadedCandidate) :
    DB × ReviewStats :=
  let db := s.1
  let stats := s.2
  let decision := ask_llm_merge_decision (oracle c)
  let stats := { stats with reviewed := stats.reviewed + 1 }
  if decision.should_merge then
    let stats := { stats with approved := stats.approved + 1 }
    let st := llmReviewSourceTarget c.entity1 c.entity2
    match db.entity_aliases.find? (fun a => a.entity_id == st.2.id) with
    | none => (db, { stats with errors := stats.errors + 1 })
    | some target_canonical =>
        if dry_run then
          (db, { stats with merged := stats.merged + 1 })
        else
          let out := merge_entities db st.1.id target_canonical.canonical_id
            "llm" decision.confidence ("llm:" ++ model)
          match out.2 with
          | .merged _ _ _ => (out.1, { stats with merged := stats.merged + 1 })
          | _ => (out.1, { stats with errors := stats.errors + 1 })
  else
    (db, { stats with rejected := stats.rejected + 1 })

/-- Embeds the loop of `llm_review.batch_llm_review`: filter the loaded
candidates to the `[min_confidence, max_confidence]` band (both ends
inclusive, as in the source), then fold the per-candidate step over the
database. -/
def batch_llm_review (db : DB) (candidates : List LoadedCandidate)
    (oracle : LoadedCandidate → Except String LLMDecision) (model : String)
    (min_confidence : ℚ := 0.80) (max_confidence : ℚ := 0.95)
    (dry_run : Bool := false) : DB × ReviewStats :=
  let llm_review_candidates := candidates.filter fun c =>
    decide (min_confidence ≤ c.confidence ∧ c.confidence ≤ max_confidence)
  llm_review_candidates.foldl (batchLLMReviewStep oracle model dry_run)
    (db, { total_candidates := llm_review_candidates.length, reviewed := 0,
           approved := 0, rejected := 0, merged := 0, errors := 0 })

/-- The canonical-graph well-formedness invariant maintained by the merge
subsystem (spec §3): canonical ids are unique; the alias table maps the
entities 1:1 (same id column, in order); entity ids are unique; every
canonical entity's `total_mentions` equals the occurrence sum of its
current aliases; and every alias points at a live canonical entity. -/
structure Inv (db : DB) : Prop where
  nodupCanon : (db.canonical_entities.map (fun c => c.canonical_id)).Nodup
  aliasEids : db.entity_aliases.map (fun a => a.entity_id)
      = db.entities.map (fun e => e.entity_id)
  nodupEnt : (db.entities.map (fun e => e.entity_id)).Nodup
  totals : ∀ c ∈ db.canonical_entities, c.total_mentions = mentionSum db c.canonical_id
  aliasLive : ∀ a ∈ db.entity_aliases,
      a.canonical_id ∈ db.canonical_entities.map (fun c => c.canonical_id)

/-! ## Claim theorems: normalization, scoring and routing (C2, C3, C4, C9, C10) -/

/-- C9, counterexample: `normalize_entity_text` does not strip punctuation
from person-type text — the semicolon and exclamation mark survive
normalization, contradicting the claim that the result is
punctuation-stripped. -/
theorem c9_counterexample :
    normalize_entity_text "Smith; Jones!".toList "person" = "smith; jones!".toList ∧
    ';' ∈ normalize_entity_text "Smith; Jones!".toList "person" := by
  decide

/-- C9, amended: for `location`/`date` the normalizer lowercases and
collapses whitespace only; for `person`/`organization` it additionally
removes exactly the periods and commas (all other punctuation is kept), so
the result never contains a period or a comma. -/
theorem c9_normalization_amended : ∀ t : List Char,
    normalize_entity_text t "location" = lowerChars (collapseWhitespace t) ∧
    normalize_entity_text t "date" = lowerChars (collapseWhitespace t) ∧
    normalize_entity_text t "organization" = normalize_entity_text t "person" ∧
    normalize_entity_text t "person"
      = removeChar ',' (removeChar '.' (lowerChars (collapseWhitespace t))) ∧
    '.' ∉ normalize_entity_text t "person" ∧
    ',' ∉ normalize_entity_text t "person" := by
  intro t
  refine ⟨?_, ?_, ?_, ?_, ?_, ?_⟩ <;>
    simp [normalize_entity_text, removeChar, List.mem_filter]

/-- The Jaccard similarity of the normalized texts of "Jeffrey" and
"Jefffrey" is 0: each side is a single token and the tokens differ. -/
theorem jaccard_jeffrey_eq :
    calculate_jaccard_similarity (normalize_entity_text "Jeffrey".toList "person")
      (normalize_entity_text "Jefffrey".toList "person") = 0 := by
  have h1 : tokenSet (normalize_entity_text "Jeffrey".toList "person")
      = ["jeffrey".toList] := by decide
  have h2 : tokenSet (normalize_entity_text "Jefffrey".toList "person")
      = ["jefffrey".toList] := by decide
  simp only [calculate_jaccard_similarity, h1, h2]
  norm_num

/-- C3, counterexample: with the Jaccard value the pipeline actually
computes for "Jeffrey" vs "Jefffrey" (0, since the single tokens differ),
the scorer lands at 0.95 − 0.15 — exactly 0.80 in this rational model,
`0.7999999999999999` in the program's doubles, in either case far below
0.95: the claimed lower bound 0.95 fails. -/
theorem c3_counterexample :
    (calculate_merge_confidence "Jeffrey".toList "Jefffrey".toList 1 1 1
      (calculate_jaccard_similarity (normalize_entity_text "Jeffrey".toList "person")
        (normalize_entity_text "Jefffrey".toList "person"))).1 < 0.95 := by
  rw [jaccard_jeffrey_eq]
  simp only [calculate_merge_confidence]
  norm_num [min_def]

/-- C3, amended: the scorer is a pure function (determinism is by
construction of the embedding); the Jaccard similarity consistent with the
texts "Jeffrey"/"Jefffrey" is 0, so with edit distance 1 the low-overlap
penalty applies and, for every choice of counts, the confidence lies
strictly between 0.75 and 0.95 and never above 0.85 — never ≥ 0.95.
(Only double-robust bounds are asserted: in exact arithmetic the two
possible values are 0.95 − 0.15 and 0.95 + 0.05 − 0.15; in the program's
doubles the former is `0.7999999999999999`, one ulp below 0.80, and the
latter is exactly 0.85, so each bound here holds of the program with
slack far above double rounding error.) -/
theorem c3_scoring_amended :
    calculate_jaccard_similarity (normalize_entity_text "Jeffrey".toList "person")
      (normalize_entity_text "Jefffrey".toList "person") = 0 ∧
    ∀ count1 count2 : ℤ,
      0.75 < (calculate_merge_confidence "Jeffrey".toList "Jefffrey".toList count1 count2 1 0).1 ∧
      (calculate_merge_confidence "Jeffrey".toList "Jefffrey".toList count1 count2 1 0).1 ≤ 0.85 ∧
      (calculate_merge_confidence "Jeffrey".toList "Jefffrey".toList count1 count2 1 0).1 < 0.95 := by
  refine ⟨jaccard_jeffrey_eq, ?_⟩
  intro count1 count2
  simp only [calculate_merge_confidence]
  norm_num
  split_ifs <;> norm_num [min_def]

/-- The Jaccard similarity the pipeline computes for "South Africa" vs
"South America" is 1/3: one shared token out of three distinct tokens. -/
theorem jaccard_south_eq :
    calculate_jaccard_similarity (normalize_entity_text "South Africa".toList "location")
      (normalize_entity_text "South America".toList "location") = 1/3 := by
  have h1 : tokenSet (normalize_entity_text "South Africa".toList "location")
      = ["south".toList, "africa".toList] := by decide
  have h2 : tokenSet (normalize_entity_text "South America".toList "location")
      = ["south".toList, "america".toList] := by decide
  simp only [calculate_jaccard_similarity, h1, h2]
  simp +decide

/-- Any merge candidate whose confidence sits in `[0.80, 0.95)` belongs to
the `llm_review` band of the report allocation and to neither of the other
two bands. -/
theorem tier_of_llm_band (c : MergeCandidate) (h1 : 0.80 ≤ c.confidence)
    (h2 : c.confidence < 0.95) :
    llmReviewTier [c] = [c] ∧ autoMergeTier [c] = [] ∧ manualReviewTier [c] = [] := by
  refine ⟨List.filter_eq_self.mpr ?_, List.filter_eq_nil_iff.mpr ?_,
    List.filter_eq_nil_iff.mpr ?_⟩ <;> intro a ha <;> rw [List.mem_singleton] at ha <;>
    subst ha <;> rw [decide_eq_true_eq]
  · exact ⟨h1, h2⟩
  · intro hge
    rw [ge_iff_le] at hge
    linarith
  · rintro ⟨-, hlt⟩
    linarith

/-- C4, counterexample: for "South Africa" vs "South America" the pipeline
computes edit distance 2 (not 3) and Jaccard 1/3 (not 0.5); with unit
counts the scorer returns 0.85 (not 0.75), and a candidate carrying that
confidence is not in the manual-review band. -/
theorem c4_counterexample :
    levenshtein_distance (normalize_entity_text "South Africa".toList "location")
        (normalize_entity_text "South America".toList "location") = 2 ∧
    calculate_jaccard_similarity (normalize_entity_text "South Africa".toList "location")
        (normalize_entity_text "South America".toList "location") = 1/3 ∧
    (calculate_merge_confidence "South Africa".toList "South America".toList 1 1 2 (1/3)).1
      = 0.85 ∧
    manualReviewTier [⟨1, "South Africa", 1, 2, "South America", 1, 2, 1/3, 0.85, "r"⟩]
      = [] := by
  refine ⟨by decide, jaccard_south_eq, ?_, ?_⟩
  · simp only [calculate_merge_confidence]
    norm_num [min_def]
  · simp [manualReviewTier, List.filter]
    norm_num

/-- C4, amended: the pipeline computes edit distance 2 and Jaccard 1/3 for
"South Africa" vs "South America"; for every choice of counts the scorer
returns 0.85 (or 0.90 with the rare-variant boost), which lies in
`[0.80, 0.95)`, so the candidate is routed to the LLM-review tier — never
to auto-merge and never to manual review. -/
theorem c4_routing_amended :
    levenshtein_distance (normalize_entity_text "South Africa".toList "location")
        (normalize_entity_text "South America".toList "location") = 2 ∧
    calculate_jaccard_similarity (normalize_entity_text "South Africa".toList "location")
        (normalize_entity_text "South America".toList "location") = 1/3 ∧
    ∀ count1 count2 : ℤ,
      ((calculate_merge_confidence "South Africa".toList "South America".toList
          count1 count2 2 (1/3)).1 = 0.85 ∨
        (calculate_merge_confidence "South Africa".toList "South America".toList
          count1 count2 2 (1/3)).1 = 0.90) ∧
      ∀ c : MergeCandidate,
        c.confidence = (calculate_merge_confidence "South Africa".toList "South America".toList
          count1 count2 2 (1/3)).1 →
        llmReviewTier [c] = [c] ∧ autoMergeTier [c] = [] ∧ manualReviewTier [c] = [] := by
  refine ⟨by decide, jaccard_south_eq, ?_⟩
  intro count1 count2
  have hconf : (calculate_merge_confidence "South Africa".toList "South America".toList
      count1 count2 2 (1/3)).1 = 0.85 ∨
      (calculate_merge_confidence "South Africa".toList "South America".toList
        count1 count2 2 (1/3)).1 = 0.90 := by
    simp only [calculate_merge_confidence]
    norm_num
    split_ifs <;> norm_num [min_def]
  refine ⟨hconf, ?_⟩
  intro c hc
  rcases hconf with h | h <;>
    exact tier_of_llm_band c (by rw [hc, h]; norm_num) (by rw [hc, h]; norm_num)

/-- C4, witness: the amended theorem applied at counts 1/1 and the
candidate record carrying the scorer's output confidence. -/
theorem c4_witness :
    llmReviewTier [⟨1, "South Africa", 1, 2, "South America", 1, 2, 1/3,
        (calculate_merge_confidence "South Africa".toList "South America".toList 1 1 2 (1/3)).1,
        "r"⟩]
      = [⟨1, "South Africa", 1, 2, "South America", 1, 2, 1/3,
        (calculate_merge_confidence "South Africa".toList "South America".toList 1 1 2 (1/3)).1,
        "r"⟩] ∧
    autoMergeTier [⟨1, "South Africa", 1, 2, "South America", 1, 2, 1/3,
        (calculate_merge_confidence "South Africa".toList "South America".toList 1 1 2 (1/3)).1,
        "r"⟩] = [] ∧
    manualReviewTier [⟨1, "South Africa", 1, 2, "South America", 1, 2, 1/3,
        (calculate_merge_confidence "South Africa".toList "South America".toList 1 1 2 (1/3)).1,
        "r"⟩] = [] :=
  (c4_routing_amended.2.2 1 1).2
    ⟨1, "South Africa", 1, 2, "South America", 1, 2, 1/3,
      (calculate_merge_confidence "South Africa".toList "South America".toList 1 1 2 (1/3)).1,
      "r"⟩ rfl

/-- C2, counterexample: on an exact tie of occurrence counts both batch
paths keep entity1 as the merge target (the `e1["count"] >= e2["count"]`
branch), not entity2 as the claim states. -/
theorem c2_counterexample :
    (autoMergeSourceTarget ⟨1, "A", 5⟩ ⟨2, "B", 5⟩).2 = ⟨1, "A", 5⟩ ∧
    (llmReviewSourceTarget ⟨1, "A", 5⟩ ⟨2, "B", 5⟩).2 = ⟨1, "A", 5⟩ ∧
    (⟨1, "A", 5⟩ : CandEntityRef) ≠ ⟨2, "B", 5⟩ := by
  decide

/-- C2, amended: in both the auto-merge and the oracle-review path the
lower-count entity becomes the merge source and the higher-count entity
the merge target; on equal counts entity1 (not entity2) is kept as the
target. -/
theorem c2_tiebreak_amended : ∀ e1 e2 : CandEntityRef,
    (e2.count < e1.count →
      autoMergeSourceTarget e1 e2 = (e2, e1) ∧ llmReviewSourceTarget e1 e2 = (e2, e1)) ∧
    (e1.count < e2.count →
      autoMergeSourceTarget e1 e2 = (e1, e2) ∧ llmReviewSourceTarget e1 e2 = (e1, e2)) ∧
    (e1.count = e2.count →
      autoMergeSourceTarget e1 e2 = (e2, e1) ∧ llmReviewSourceTarget e1 e2 = (e2, e1)) := by
  intro e1 e2
  simp only [autoMergeSourceTarget, llmReviewSourceTarget]
  refine ⟨fun h => ?_, fun h => ?_, fun h => ?_⟩ <;> split_ifs with hif
  · exact ⟨rfl, rfl⟩
  · omega
  · omega
  · exact ⟨rfl, rfl⟩
  · exact ⟨rfl, rfl⟩
  · omega

/-- C2, witness: the amended tie-break rule applied at concrete entities
with counts 5 and 3. -/
theorem c2_witness :
    autoMergeSourceTarget ⟨1, "A", 5⟩ ⟨2, "B", 3⟩ = (⟨2, "B", 3⟩, ⟨1, "A", 5⟩) ∧
    llmReviewSourceTarget ⟨1, "A", 5⟩ ⟨2, "B", 3⟩ = (⟨2, "B", 3⟩, ⟨1, "A", 5⟩) :=
  (c2_tiebreak_amended ⟨1, "A", 5⟩ ⟨2, "B", 3⟩).1 (by decide)

/-- C10: the scorer is total — the count-ratio division is guarded by
`count1 + count2 > 0`, under which `max count1 count2 ≠ 0` — and its
output is exactly 1 at edit distance 0 and otherwise lies in
`[0.35, 1.0]`: the upper cap is the only clamp, and no lower clamp is ever
needed. -/
theorem c10_scorer_range :
    ∀ (text1 text2 : List Char) (count1 count2 : ℤ) (lev_distance : ℕ) (jaccard : ℚ),
    (count1 + count2 > 0 → max count1 count2 ≠ 0) ∧
    (lev_distance = 0 →
      (calculate_merge_confidence text1 text2 count1 count2 lev_distance jaccard).1 = 1) ∧
    (lev_distance ≠ 0 →
      0.35 ≤ (calculate_merge_confidence text1 text2 count1 count2 lev_distance jaccard).1 ∧
      (calculate_merge_confidence text1 text2 count1 count2 lev_distance jaccard).1 ≤ 1) := by
  intro text1 text2 count1 count2 lev_distance jaccard
  refine ⟨?_, ?_, ?_⟩
  · intro hpos hmax
    have h1 : count1 ≤ max count1 count2 := le_max_left _ _
    have h2 : count2 ≤ max count1 count2 := le_max_right _ _
    rw [hmax] at h1 h2
    omega
  · intro h
    simp [calculate_merge_confidence, h]
  · intro h
    simp only [calculate_merge_confidence, if_neg h]
    split_ifs <;> constructor <;> norm_num [min_def]

/-- C10, witness: the range bounds at a concrete nonzero edit distance. -/
theorem c10_witness :
    0.35 ≤ (calculate_merge_confidence "a".toList "b".toList 1 1 2 0).1 ∧
    (calculate_merge_confidence "a".toList "b".toList 1 1 2 0).1 ≤ 1 :=
  (c10_scorer_range "a".toList "b".toList 1 1 2 0).2.2 (by decide)

/-! ## Claim theorems: merge executor semantics (C5, C6) -/

/-- C5: when the source entity's alias already points at the target
canonical id, `merge_entities` returns the `already_merged` status and the
database — aliases, both canonical entities, the whole canonical set — is
returned unchanged. -/
theorem c5_merge_idempotent :
    ∀ (db : DB) (src tgt : ℕ) (method : String) (conf : ℚ) (mb : String) (a : AliasRow),
    db.entity_aliases.find? (fun x => x.entity_id == src) = some a →
    a.canonical_id = tgt →
    merge_entities db src tgt method conf mb = (db, .alreadyMerged) := by
  intro db src tgt method conf mb a hfind hcid
  simp only [merge_entities, hfind]
  rw [if_pos hcid]

/-- C5, witness: merging the seed entity of a freshly initialized 1:1
state into its own canonical id is a no-op. -/
theorem c5_witness :
    merge_entities (initialize_canonical_entities [⟨1, "A", "person", "a", 5⟩]) 1 1
      "manual" 1 "user"
      = (initialize_canonical_entities [⟨1, "A", "person", "a", 5⟩], .alreadyMerged) :=
  c5_merge_idempotent (initialize_canonical_entities [⟨1, "A", "person", "a", 5⟩]) 1 1
    "manual" 1 "user" ⟨1, 1, true, "initial", 1, "system"⟩ (by decide) rfl

/-- C6: when the source entity has no alias row, `merge_entities` fails
with the not-found error (the code's `ValueError`, the spec's
`NotFoundError`) and the database is returned unchanged — no alias,
canonical-entity or `total_mentions` mutation happens. -/
theorem c6_merge_not_found :
    ∀ (db : DB) (src tgt : ℕ) (method : String) (conf : ℚ) (mb : String),
    db.entity_aliases.find? (fun x => x.entity_id == src) = none →
    merge_entities db src tgt method conf mb =
      (db, .notFound ("Entity " ++ toString src ++ " not found in aliases table")) := by
  intro db src tgt method conf mb h
  simp only [merge_entities, h]

/-- C6, witness: a database whose alias table is empty rejects any merge
with the not-found error and is unchanged. -/
theorem c6_witness :
    merge_entities ⟨[⟨1, "A", "person", "a", 5⟩], [], []⟩ 1 7 "manual" 1 "user" =
      (⟨[⟨1, "A", "person", "a", 5⟩], [], []⟩,
        .notFound ("Entity " ++ toString 1 ++ " not found in aliases table")) :=
  c6_merge_not_found ⟨[⟨1, "A", "person", "a", 5⟩], [], []⟩ 1 7 "manual" 1 "user" rfl

/-! ## Claim theorems: oracle fail-safe (C8) -/

/-- Every iteration of the review loop counts exactly one review, and one
rejection exactly when the (fail-safed) decision is not `should_merge` —
regardless of dry-run mode, missing aliases, or merge outcome. -/
theorem batchLLMReviewStep_counts (oracle : LoadedCandidate → Except String LLMDecision)
    (model : String) (dry_run : Bool) (s : DB × ReviewStats) (c : LoadedCandidate) :
    ((batchLLMReviewStep oracle model dry_run s c).2.reviewed = s.2.reviewed + 1) ∧
    ((batchLLMReviewStep oracle model dry_run s c).2.rejected =
      s.2.rejected + (if (ask_llm_merge_decision (oracle c)).should_merge then 0 else 1)) := by
  unfold batchLLMReviewStep
  cases h : (ask_llm_merge_decision (oracle c)).should_merge <;> simp only [h] <;>
    repeat' first
      | rfl
      | (constructor <;> rfl)
      | split

/-- Folding the review step over a candidate list reviews every candidate
(the batch never stops early) and rejects exactly those whose fail-safed
decision is negative. -/
theorem batchLLMReviewFold (oracle : LoadedCandidate → Except String LLMDecision)
    (model : String) (dry_run : Bool) :
    ∀ (cands : List LoadedCandidate) (s : DB × ReviewStats),
    ((cands.foldl (batchLLMReviewStep oracle model dry_run) s).2.reviewed
      = s.2.reviewed + cands.length) ∧
    ((cands.foldl (batchLLMReviewStep oracle model dry_run) s).2.rejected
      = s.2.rejected + (cands.filter fun c =>
          !(ask_llm_merge_decision (oracle c)).should_merge).length) := by
  intro cands
  induction cands with
  | nil => intro s; simp
  | cons c cs ih =>
    intro s
    rw [List.foldl_cons]
    rcases ih (batchLLMReviewStep oracle model dry_run s c) with ⟨hrev, hrej⟩
    rcases batchLLMReviewStep_counts oracle model dry_run s c with ⟨h1, h2⟩
    constructor
    · rw [hrev, h1, List.length_cons]
      omega
    · rw [hrej, h2, List.filter_cons]
      cases h : (ask_llm_merge_decision (oracle c)).should_merge <;> simp [h] <;> omega

/-- C8: every failing oracle call — network error, timeout, malformed or
non-JSON response, all abstracted as the `.error` outcome of the
`try`-block — yields `should_merge = false` with confidence 0.0 and the
error as reasoning, no exception escapes, and the batch keeps going: the
number of reviews equals the number of in-band candidates and each failed
call is counted as a rejection. -/
theorem c8_oracle_fail_safe :
    (∀ e : String, ask_llm_merge_decision (.error e)
        = { should_merge := false, reasoning := "Error: " ++ e, confidence := 0 }) ∧
    ∀ (db : DB) (candidates : List LoadedCandidate)
      (oracle : LoadedCandidate → Except String LLMDecision) (model : String)
      (minc maxc : ℚ) (dry_run : Bool),
      ((batch_llm_review db candidates oracle model minc maxc dry_run).2.reviewed
        = (candidates.filter fun c =>
            decide (minc ≤ c.confidence ∧ c.confidence ≤ maxc)).length) ∧
      ((batch_llm_review db candidates oracle model minc maxc dry_run).2.rejected
        = ((candidates.filter fun c =>
            decide (minc ≤ c.confidence ∧ c.confidence ≤ maxc)).filter
              fun c => !(ask_llm_merge_decision (oracle c)).should_merge).length) := by
  constructor
  · intro e
    rfl
  · intro db candidates oracle model minc maxc dry_run
    unfold batch_llm_review
    have h := batchLLMReviewFold oracle model dry_run
      (candidates.filter fun c => decide (minc ≤ c.confidence ∧ c.confidence ≤ maxc))
      (db, { total_candidates := (candidates.filter fun c =>
               decide (minc ≤ c.confidence ∧ c.confidence ≤ maxc)).length,
             reviewed := 0, approved := 0, rejected := 0, merged := 0, errors := 0 })
    simpa using h

/-! ## Claim theorems: blocking soundness (C7) -/

/-- Membership in a stable insert. -/
theorem mem_insertOrdered {α : Type} (le : α → α → Bool) (x a : α) :
    ∀ l : List α, a ∈ insertOrdered le x l ↔ a = x ∨ a ∈ l := by
  intro l
  induction l with
  | nil => simp [insertOrdered]
  | cons y ys ih =>
    simp only [insertOrdered]
    split_ifs
    · simp [List.mem_cons]
    · simp only [List.mem_cons, ih]
      tauto

/-- Sorting does not change membership. -/
theorem mem_sortBy {α : Type} (le : α → α → Bool) (a : α) :
    ∀ l : List α, a ∈ sortBy le l ↔ a ∈ l := by
  intro l
  induction l with
  | nil => simp [sortBy]
  | cons x xs ih =>
    simp only [sortBy, List.foldr_cons] at ih ⊢
    rw [mem_insertOrdered, ih, List.mem_cons]

/-- Both components of a pair produced by the within-block pairing belong
to the block. -/
theorem pairsWithin_mem :
    ∀ (l : List EntityRow) (p : EntityRow × EntityRow),
    p ∈ pairsWithin l → p.1 ∈ l ∧ p.2 ∈ l := by
  intro l
  induction l with
  | nil => intro p hp; simp [pairsWithin] at hp
  | cons x xs ih =>
    intro p hp
    simp only [pairsWithin, List.mem_append, List.mem_map] at hp
    rcases hp with ⟨y, hy, rfl⟩ | hp
    · exact ⟨List.mem_cons_self _ _, List.mem_cons_of_mem _ hy⟩
    · rcases ih p hp with ⟨h1, h2⟩
      exact ⟨List.mem_cons_of_mem _ h1, List.mem_cons_of_mem _ h2⟩

/-- `addToBlocks` preserves the bucket invariant: every row of a bucket
has that bucket's blocking key. -/
theorem addToBlocks_key (e : EntityRow) :
    ∀ (blocks : List (String × List EntityRow)),
    (∀ kb ∈ blocks, ∀ r ∈ kb.2, blockKey r = kb.1) →
    ∀ kb ∈ addToBlocks blocks e, ∀ r ∈ kb.2, blockKey r = kb.1 := by
  intro blocks
  induction blocks with
  | nil =>
    intro _ kb hkb r hr
    simp only [addToBlocks, List.mem_singleton] at hkb
    subst hkb
    simp only [List.mem_singleton] at hr
    subst hr
    rfl
  | cons b rest ih =>
    intro hinv kb hkb r hr
    obtain ⟨k, bl⟩ := b
    simp only [addToBlocks] at hkb
    by_cases hk : k = blockKey e
    · rw [if_pos hk] at hkb
      rcases List.mem_cons.mp hkb with h | hkb'
      · subst h
        rcases List.mem_append.mp hr with hr' | hr'
        · exact hinv (k, bl) (List.mem_cons_self _ _) r hr'
        · simp only [List.mem_singleton] at hr'
          subst hr'
          exact hk.symm
      · exact hinv kb (List.mem_cons_of_mem _ hkb') r hr
    · rw [if_neg hk] at hkb
      rcases List.mem_cons.mp hkb with h | hkb'
      · subst h
        exact hinv (k, bl) (List.mem_cons_self _ _) r hr
      · exact ih (fun kb0 h0 => hinv kb0 (List.mem_cons_of_mem _ h0)) kb hkb' r hr

/-- Every row found in a bucket after `addToBlocks` was in a bucket
before, or is the inserted row. -/
theorem addToBlocks_elem (e : EntityRow) :
    ∀ (blocks : List (String × List EntityRow)) (kb : String × List EntityRow)
      (r : EntityRow),
    kb ∈ addToBlocks blocks e → r ∈ kb.2 →
    (∃ kb0 ∈ blocks, r ∈ kb0.2) ∨ r = e := by
  intro blocks
  induction blocks with
  | nil =>
    intro kb r hkb hr
    simp only [addToBlocks, List.mem_singleton] at hkb
    subst hkb
    simp only [List.mem_singleton] at hr
    exact Or.inr hr
  | cons b rest ih =>
    intro kb r hkb hr
    obtain ⟨k, bl⟩ := b
    simp only [addToBlocks] at hkb
    by_cases hk : k = blockKey e
    · rw [if_pos hk] at hkb
      rcases List.mem_cons.mp hkb with h | hkb'
      · subst h
        rcases List.mem_append.mp hr with hr' | hr'
        · exact Or.inl ⟨(k, bl), List.mem_cons_self _ _, hr'⟩
        · simp only [List.mem_singleton] at hr'
          exact Or.inr hr'
      · exact Or.inl ⟨kb, List.mem_cons_of_mem _ hkb', hr⟩
    · rw [if_neg hk] at hkb
      rcases List.mem_cons.mp hkb with h | hkb'
      · subst h
        exact Or.inl ⟨(k, bl), List.mem_cons_self _ _, hr⟩
      · rcases ih kb r hkb' hr with ⟨kb0, h0, hm⟩ | he
        · exact Or.inl ⟨kb0, List.mem_cons_of_mem _ h0, hm⟩
        · exact Or.inr he

/-- Soundness of the grouping fold: every row of every bucket carries the
bucket's key and came from the input rows (or the accumulator). -/
theorem foldl_addToBlocks_sound :
    ∀ (rows : List EntityRow) (acc : List (String × List EntityRow)),
    (∀ kb ∈ acc, ∀ r ∈ kb.2, blockKey r = kb.1) →
    ∀ kb ∈ rows.foldl addToBlocks acc, ∀ r ∈ kb.2,
      blockKey r = kb.1 ∧ (r ∈ rows ∨ ∃ kb0 ∈ acc, r ∈ kb0.2) := by
  intro rows
  induction rows with
  | nil =>
    intro acc hinv kb hkb r hr
    exact ⟨hinv kb hkb r hr, Or.inr ⟨kb, hkb, hr⟩⟩
  | cons x xs ih =>
    intro acc hinv kb hkb r hr
    rw [List.foldl_cons] at hkb
    have hinv' := addToBlocks_key x acc hinv
    rcases ih (addToBlocks acc x) hinv' kb hkb r hr with ⟨hkey, hmem⟩
    refine ⟨hkey, ?_⟩
    rcases hmem with hx | ⟨kb0, h0, hm⟩
    · exact Or.inl (List.mem_cons_of_mem _ hx)
    · rcases addToBlocks_elem x acc kb0 r h0 hm with ⟨kb1, h1, hm1⟩ | he
      · exact Or.inr ⟨kb1, h1, hm1⟩
      · rw [he]
        exact Or.inl (List.mem_cons_self _ _)

/-- Every pair the finder compares consists of two selected entity rows
sharing the blocking key. -/
theorem comparedPairs_sound (db : DB) (entity_type : String) (min_occurrences : ℤ) :
    ∀ p ∈ comparedPairs db entity_type min_occurrences,
      p.1 ∈ db.entities ∧ p.2 ∈ db.entities ∧ blockKey p.1 = blockKey p.2 := by
  intro p hp
  unfold comparedPairs at hp
  rcases List.mem_flatMap.mp hp with ⟨kb, hkb, hpair⟩
  have hmem := pairsWithin_mem kb.2 p hpair
  have hsound := foldl_addToBlocks_sound
    (orderRows (selectCandidateRows db entity_type min_occurrences)) [] (by simp) kb hkb
  rcases hsound p.1 hmem.1 with ⟨hk1, hm1⟩
  rcases hsound p.2 hmem.2 with ⟨hk2, hm2⟩
  have hrow : ∀ r : EntityRow,
      (r ∈ orderRows (selectCandidateRows db entity_type min_occurrences) ∨
        ∃ kb0 ∈ ([] : List (String × List EntityRow)), r ∈ kb0.2) → r ∈ db.entities := by
    intro r hr
    rcases hr with hr | ⟨kb0, h0, _⟩
    · rw [orderRows, mem_sortBy] at hr
      exact (List.mem_filter.mp hr).1
    · simp at h0
  exact ⟨hrow p.1 hm1, hrow p.2 hm2, hk1.trans hk2.symm⟩

/-- A produced candidate records exactly the ids of the compared pair. -/
theorem candidateOfPair_ids (max_distance : ℕ) (min_confidence : ℚ)
    (p : EntityRow × EntityRow) (c : MergeCandidate) :
    candidateOfPair max_distance min_confidence p = some c →
    c.entity1_id = p.1.entity_id ∧ c.entity2_id = p.2.entity_id := by
  unfold candidateOfPair
  intro h
  dsimp only at h
  repeat' split at h
  all_goals try exact Option.noConfusion h
  injection h with h2
  subst h2
  exact ⟨rfl, rfl⟩

/-- C7: blocking soundness — every pair the finder compares, and hence
every returned candidate's underlying pair of entities, shares the
first-3-character normalized-text blocking key; entities not sharing it
are never compared and never co-occur in a candidate. -/
theorem c7_blocking_soundness :
    ∀ (db : DB) (entity_type : String) (min_occurrences : ℤ) (max_distance : ℕ)
      (min_confidence : ℚ) (limit : ℕ),
    (∀ p ∈ comparedPairs db entity_type min_occurrences,
      p.1 ∈ db.entities ∧ p.2 ∈ db.entities ∧
        p.1.normalized_text.take 3 = p.2.normalized_text.take 3) ∧
    (∀ c ∈ find_merge_candidates db entity_type min_occurrences max_distance
        min_confidence limit,
      ∃ e1 ∈ db.entities, ∃ e2 ∈ db.entities,
        c.entity1_id = e1.entity_id ∧ c.entity2_id = e2.entity_id ∧
        e1.normalized_text.take 3 = e2.normalized_text.take 3) := by
  intro db entity_type min_occurrences max_distance min_confidence limit
  constructor
  · intro p hp
    exact comparedPairs_sound db entity_type min_occurrences p hp
  · intro c hc
    unfold find_merge_candidates at hc
    have hc1 := List.mem_of_mem_take hc
    rw [mem_sortBy] at hc1
    rcases List.mem_filterMap.mp hc1 with ⟨p, hp, hsome⟩
    rcases candidateOfPair_ids max_distance min_confidence p c hsome with ⟨h1, h2⟩
    rcases comparedPairs_sound db entity_type min_occurrences p hp with ⟨he1, he2, hk⟩
    exact ⟨p.1, he1, p.2, he2, h1, h2, hk⟩

/-- C7, witness: in a two-entity corpus with a shared "jef" block the
finder compares exactly that pair, whose normalized texts share the
3-character blocking key. -/
theorem c7_witness :
    (⟨1, "Jeffrey Epstein", "person", "jeffrey epstein", 50⟩ : EntityRow)
        ∈ (initialize_canonical_entities
            [⟨1, "Jeffrey Epstein", "person", "jeffrey epstein", 50⟩,
             ⟨2, "Jeffery Epstein", "person", "jeffery epstein", 2⟩]).entities ∧
    (⟨2, "Jeffery Epstein", "person", "jeffery epstein", 2⟩ : EntityRow)
        ∈ (initialize_canonical_entities
            [⟨1, "Jeffrey Epstein", "person", "jeffrey epstein", 50⟩,
             ⟨2, "Jeffery Epstein", "person", "jeffery epstein", 2⟩]).entities ∧
    ("jeffrey epstein" : String).take 3 = ("jeffery epstein" : String).take 3 :=
  (c7_blocking_soundness
    (initialize_canonical_entities
      [⟨1, "Jeffrey Epstein", "person", "jeffrey epstein", 50⟩,
       ⟨2, "Jeffery Epstein", "person", "jeffery epstein", 2⟩])
    "person" 1 3 (7/10) 100).1
    (⟨1, "Jeffrey Epstein", "person", "jeffrey epstein", 50⟩,
     ⟨2, "Jeffery Epstein", "person", "jeffery epstein", 2⟩)
    (by decide)

/-! ## Claim theorems: mention-count conservation (C1) -/

/-- Mapping a projection then a function is mapping the composite. -/
theorem map_proj_comm {α β γ : Type} (l : List α) (f : α → β) (g : β → γ) :
    l.map (fun x => g (f x)) = (l.map f).map g := by
  induction l with
  | nil => rfl
  | cons x xs ih => simp only [List.map_cons, ih]

/-- Pointwise sums split. -/
theorem sum_map_add {α : Type} (l : List α) (f g : α → ℤ) :
    (l.map (fun x => f x + g x)).sum = (l.map f).sum + (l.map g).sum := by
  induction l with
  | nil => simp
  | cons x xs ih =>
    simp only [List.map_cons, List.sum_cons, ih]
    ring

/-- Summing an indicator over a duplicate-free key list that contains the
key yields the indicated value. -/
theorem sum_map_ite_eq (k : ℕ) (v : ℤ) :
    ∀ ids : List ℕ, ids.Nodup → k ∈ ids →
    (ids.map (fun i => if k = i then v else 0)).sum = v := by
  intro ids
  induction ids with
  | nil => intro _ hk; cases hk
  | cons i is ih =>
    intro hn hk
    rw [List.map_cons, List.sum_cons]
    rcases List.mem_cons.mp hk with rfl | hk'
    · rw [if_pos rfl]
      have hni : k ∉ is := (List.nodup_cons.mp hn).1
      have hz : (is.map (fun j => if k = j then v else 0)).sum
          = (is.map (fun _ => (0 : ℤ))).sum := by
        apply congrArg
        apply List.map_congr_left
        intro j hj
        apply if_neg
        intro hEq
        subst hEq
        exact hni hj
      rw [hz]
      simp
    · have hne : k ≠ i := by
        intro hEq
        exact (List.nodup_cons.mp hn).1 (hEq ▸ hk')
      rw [if_neg hne, ih (List.nodup_cons.mp hn).2 hk']
      ring

/-- Under duplicate-free keys, `find?` by an element's own key returns
that element. -/
theorem find?_entity_eq :
    ∀ (l : List EntityRow), (l.map (fun e => e.entity_id)).Nodup →
    ∀ e ∈ l, l.find? (fun x => x.entity_id == e.entity_id) = some e := by
  intro l
  induction l with
  | nil => intro _ e he; cases he
  | cons x xs ih =>
    intro hn e he
    rcases List.mem_cons.mp he with rfl | he'
    · exact List.find?_cons_of_pos xs (by simp)
    · have hx : ¬(x.entity_id == e.entity_id) = true := by
        rw [beq_iff_eq]
        intro hEq
        rw [List.map_cons, List.nodup_cons] at hn
        exact hn.1 (hEq ▸ List.mem_map_of_mem (fun r => r.entity_id) he')
      rw [List.find?_cons_of_neg xs hx]
      rw [List.map_cons, List.nodup_cons] at hn
      exact ih hn.2 e he'

/-- The occurrence lookup of a present entity under unique entity ids. -/
theorem occOf_eq {db : DB} (h : (db.entities.map (fun e => e.entity_id)).Nodup)
    {e : EntityRow} (he : e ∈ db.entities) : occOf db e.entity_id = e.occurrence_count := by
  unfold occOf
  rw [find?_entity_eq db.entities h e he]

/-- `occOf` only reads the entity table. -/
theorem occOf_congr {db db' : DB} (h : db'.entities = db.entities) :
    occOf db' = occOf db := by
  funext eid
  unfold occOf
  rw [h]

theorem aliasOccSum_nil (db : DB) (k : ℕ) : aliasOccSum db [] k = 0 := rfl

theorem aliasOccSum_cons (db : DB) (a : AliasRow) (as : List AliasRow) (k : ℕ) :
    aliasOccSum db (a :: as) k
      = (if a.canonical_id = k then occOf db a.entity_id else 0) + aliasOccSum db as k := by
  unfold aliasOccSum
  rw [List.filter_cons]
  by_cases h : a.canonical_id = k
  · rw [if_pos h, if_pos (by simpa using h), List.map_cons, List.sum_cons]
  · rw [if_neg h, if_neg (by simpa using h), zero_add]

theorem aliasOccSum_append (db : DB) (u v : List AliasRow) (k : ℕ) :
    aliasOccSum db (u ++ v) k = aliasOccSum db u k + aliasOccSum db v k := by
  unfold aliasOccSum
  rw [List.filter_append, List.map_append, List.sum_append]

/-- `mentionSum` is `aliasOccSum` at the database's own alias table. -/
theorem mentionSum_eq_aliasOccSum (db : DB) (k : ℕ) :
    mentionSum db k = aliasOccSum db db.entity_aliases k := rfl

/-- Partitioning the alias sum over a duplicate-free covering list of
canonical ids: summing `aliasOccSum` per canonical id recovers the plain
sum over aliases. -/
theorem sum_aliasOccSum_partition (db : DB) :
    ∀ (as : List AliasRow) (canons : List CanonicalRow),
    (canons.map (fun c => c.canonical_id)).Nodup →
    (∀ a ∈ as, a.canonical_id ∈ canons.map (fun c => c.canonical_id)) →
    (canons.map (fun c => aliasOccSum db as c.canonical_id)).sum
      = (as.map (fun a => occOf db a.entity_id)).sum := by
  intro as
  induction as with
  | nil =>
    intro canons _ _
    have hz : canons.map (fun c => aliasOccSum db [] c.canonical_id)
        = canons.map (fun _ => (0 : ℤ)) :=
      List.map_congr_left (fun c _ => aliasOccSum_nil db c.canonical_id)
    rw [hz]
    simp
  | cons a as ih =>
    intro canons hnd hcov
    have hstep : canons.map (fun c => aliasOccSum db (a :: as) c.canonical_id)
        = canons.map (fun c =>
            (if a.canonical_id = c.canonical_id then occOf db a.entity_id else 0)
              + aliasOccSum db as c.canonical_id) :=
      List.map_congr_left (fun c _ => aliasOccSum_cons db a as c.canonical_id)
    rw [hstep, sum_map_add]
    have hone : (canons.map (fun c =>
        if a.canonical_id = c.canonical_id then occOf db a.entity_id else 0)).sum
        = occOf db a.entity_id := by
      rw [map_proj_comm canons (fun c => c.canonical_id)
        (fun i => if a.canonical_id = i then occOf db a.entity_id else 0)]
      exact sum_map_ite_eq a.canonical_id (occOf db a.entity_id)
        (canons.map (fun c => c.canonical_id)) hnd
        (hcov a (List.mem_cons_self _ _))
    rw [hone, ih canons hnd (fun b hb => hcov b (List.mem_cons_of_mem _ hb)),
      List.map_cons, List.sum_cons]

/-- Under the canonical-graph invariant, the live mention total equals the
global occurrence total: conservation follows from per-cluster
correctness, key uniqueness, alias coverage and the 1:1 alias/entity
correspondence. -/
theorem liveMentionSum_eq_occurrenceSum {db : DB} (hInv : Inv db) :
    liveMentionSum db = occurrenceSum db := by
  unfold liveMentionSum
  have h1 : db.canonical_entities.map (fun c => c.total_mentions)
      = db.canonical_entities.map (fun c => mentionSum db c.canonical_id) :=
    List.map_congr_left (fun c hc => hInv.totals c hc)
  rw [h1]
  have h2 : db.canonical_entities.map (fun c => mentionSum db c.canonical_id)
      = db.canonical_entities.map (fun c => aliasOccSum db db.entity_aliases c.canonical_id) :=
    List.map_congr_left (fun c _ => mentionSum_eq_aliasOccSum db c.canonical_id)
  rw [h2, sum_aliasOccSum_partition db db.entity_aliases db.canonical_entities
    hInv.nodupCanon hInv.aliasLive]
  rw [map_proj_comm db.entity_aliases (fun a => a.entity_id) (occOf db), hInv.aliasEids,
    ← map_proj_comm db.entities (fun e => e.entity_id) (occOf db)]
  unfold occurrenceSum
  apply congrArg
  exact List.map_congr_left (fun e he => occOf_eq hInv.nodupEnt he)

/-- Canonical ids issued by initialization from counter `k` are `≥ k`. -/
theorem initCanonAux_cid_lb :
    ∀ (l : List EntityRow) (k : ℕ), ∀ c ∈ initCanonAux k l, k ≤ c.canonical_id := by
  intro l
  induction l with
  | nil => intro k c hc; cases hc
  | cons e es ih =>
    intro k c hc
    rcases List.mem_cons.mp hc with rfl | hc'
    · exact le_refl k
    · exact le_trans (Nat.le_succ k) (ih (k + 1) c hc')

/-- Alias canonical ids issued by initialization from counter `k` are
`≥ k`. -/
theorem initAliasAux_cid_lb :
    ∀ (l : List EntityRow) (k : ℕ), ∀ a ∈ initAliasAux k l, k ≤ a.canonical_id := by
  intro l
  induction l with
  | nil => intro k a ha; cases ha
  | cons e es ih =>
    intro k a ha
    rcases List.mem_cons.mp ha with rfl | ha'
    · exact le_refl k
    · exact le_trans (Nat.le_succ k) (ih (k + 1) a ha')

/-- Initialization issues pairwise distinct canonical ids. -/
theorem initCanonAux_nodup :
    ∀ (l : List EntityRow) (k : ℕ),
    ((initCanonAux k l).map (fun c => c.canonical_id)).Nodup := by
  intro l
  induction l with
  | nil => intro k; simp [initCanonAux]
  | cons e es ih =>
    intro k
    simp only [initCanonAux, List.map_cons, List.nodup_cons]
    constructor
    · intro hk
      rcases List.mem_map.mp hk with ⟨c, hc, hcid⟩
      have := initCanonAux_cid_lb es (k + 1) c hc
      omega
    · exact ih (k + 1)

/-- Initialization creates aliases for exactly the entities, in order. -/
theorem initAliasAux_map_eid :
    ∀ (l : List EntityRow) (k : ℕ),
    (initAliasAux k l).map (fun a => a.entity_id) = l.map (fun e => e.entity_id) := by
  intro l
  induction l with
  | nil => intro k; rfl
  | cons e es ih =>
    intro k
    simp only [initAliasAux, List.map_cons, ih]

/-- Every initial alias points at an issued canonical id. -/
theorem initAliasAux_live :
    ∀ (l : List EntityRow) (k : ℕ), ∀ a ∈ initAliasAux k l,
    a.canonical_id ∈ (initCanonAux k l).map (fun c => c.canonical_id) := by
  intro l
  induction l with
  | nil => intro k a ha; cases ha
  | cons e es ih =>
    intro k a ha
    simp only [initCanonAux, List.map_cons]
    rcases List.mem_cons.mp ha with rfl | ha'
    · exact List.mem_cons_self _ _
    · exact List.mem_cons_of_mem _ (ih (k + 1) a ha')

/-- Each initial canonical entity corresponds to one entity: it carries
that entity's occurrence count, and exactly one alias (that entity's)
points at it. -/
theorem initCanonAux_filter :
    ∀ (l : List EntityRow) (k : ℕ), ∀ c ∈ initCanonAux k l,
    ∃ e ∈ l, c.total_mentions = e.occurrence_count ∧
      (initAliasAux k l).filter (fun a => a.canonical_id == c.canonical_id)
        = [⟨e.entity_id, c.canonical_id, true, "initial", 1, "system"⟩] := by
  intro l
  induction l with
  | nil => intro k c hc; cases hc
  | cons e es ih =>
    intro k c hc
    rcases List.mem_cons.mp hc with rfl | hc'
    · refine ⟨e, List.mem_cons_self _ _, rfl, ?_⟩
      simp only [initAliasAux, List.filter_cons]
      rw [if_pos (by simp)]
      have htail : (initAliasAux (k + 1) es).filter
          (fun a => a.canonical_id == k) = [] := by
        apply List.filter_eq_nil_iff.mpr
        intro b hb
        have := initAliasAux_cid_lb es (k + 1) b hb
        rw [beq_iff_eq]
        omega
      rw [htail]
    · have hge := initCanonAux_cid_lb es (k + 1) c hc'
      rcases ih (k + 1) c hc' with ⟨e2, he2, htot, hfil⟩
      refine ⟨e2, List.mem_cons_of_mem _ he2, htot, ?_⟩
      simp only [initAliasAux, List.filter_cons]
      rw [if_neg (by rw [beq_iff_eq]; omega)]
      exact hfil

/-- The freshly initialized 1:1 state satisfies the canonical-graph
invariant (given the entity table's primary-key uniqueness). -/
theorem init_inv (entities : List EntityRow)
    (hnd : (entities.map (fun e => e.entity_id)).Nodup) :
    Inv (initialize_canonical_entities entities) := by
  refine ⟨initCanonAux_nodup entities 1, initAliasAux_map_eid entities 1, hnd, ?_, ?_⟩
  · intro c hc
    rcases initCanonAux_filter entities 1 c hc with ⟨e, he, htot, hfil⟩
    have hms : mentionSum (initialize_canonical_entities entities) c.canonical_id
        = e.occurrence_count := by
      unfold mentionSum initialize_canonical_entities
      rw [hfil]
      simp only [List.map_cons, List.map_nil, List.sum_cons, List.sum_nil, add_zero]
      exact occOf_eq hnd he
    rw [htot]
    exact hms.symm
  · intro a ha
    exact initAliasAux_live entities 1 a ha

/-- The alias `UPDATE` never touches the `entity_id` column. -/
theorem updateAliasRow_map_eid (as : List AliasRow) (src tgt : ℕ) (m : String)
    (cf : ℚ) (mb : String) :
    (updateAliasRow as src tgt m cf mb).map (fun a => a.entity_id)
      = as.map (fun a => a.entity_id) := by
  unfold updateAliasRow
  induction as with
  | nil => rfl
  | cons a as ih =>
    simp only [List.map_cons, ih]
    congr 1
    by_cases h : a.entity_id = src
    · rw [if_pos h]
    · rw [if_neg h]

/-- `aliasOccSum` only reads the entity table of its database argument. -/
theorem aliasOccSum_congr {db db' : DB} (h : db'.entities = db.entities)
    (as : List AliasRow) (k : ℕ) : aliasOccSum db' as k = aliasOccSum db as k := by
  unfold aliasOccSum
  rw [occOf_congr h]

/-- A `total_mentions` `UPDATE` never touches the `canonical_id` column. -/
theorem canonMap_cid (canons : List CanonicalRow) (f : CanonicalRow → CanonicalRow)
    (hf : ∀ c, (f c).canonical_id = c.canonical_id) :
    (canons.map f).map (fun c => c.canonical_id)
      = canons.map (fun c => c.canonical_id) := by
  rw [← map_proj_comm]
  exact List.map_congr_left (fun c _ => hf c)

/-- The alias `UPDATE` on a list split around the unique row of the source
entity rewrites exactly that row. -/
theorem updateAliasRow_eq (src tgt : ℕ) (m : String) (cf : ℚ) (mb : String)
    (l1 l2 : List AliasRow) (cur : AliasRow) (hcur : cur.entity_id = src)
    (h1 : ∀ b ∈ l1, b.entity_id ≠ src) (h2 : ∀ b ∈ l2, b.entity_id ≠ src) :
    updateAliasRow (l1 ++ cur :: l2) src tgt m cf mb
      = l1 ++ { cur with
                canonical_id := tgt, is_canonical := false,
                merge_method := m, merge_confidence := cf, merged_by := mb } :: l2 := by
  unfold updateAliasRow
  rw [List.map_append, List.map_cons]
  congr 1
  · have hcongr : ∀ b ∈ l1,
        (if b.entity_id = src then
          { b with
            canonical_id := tgt, is_canonical := false, merge_method := m,
            merge_confidence := cf, merged_by := mb } else b) = id b :=
      fun b hb => if_neg (h1 b hb)
    rw [List.map_congr_left hcongr, List.map_id]
  · congr 1
    · rw [if_pos hcur]
    · have hcongr : ∀ b ∈ l2,
          (if b.entity_id = src then
            { b with
              canonical_id := tgt, is_canonical := false, merge_method := m,
              merge_confidence := cf, merged_by := mb } else b) = id b :=
        fun b hb => if_neg (h2 b hb)
      rw [List.map_congr_left hcongr, List.map_id]

/-- Case analysis for the two `total_mentions` `UPDATE`s of a merge: each
surviving row keeps its id and is bumped by `+x` (target), `-x` (source)
or untouched. -/
theorem canon_update_mem (l : List CanonicalRow) (tgt s : ℕ) (x : ℤ) (hst : ¬s = tgt) :
    ∀ c3 ∈ (l.map (fun c => if c.canonical_id = tgt
        then { c with total_mentions := c.total_mentions + x } else c)).map
          (fun c => if c.canonical_id = s
            then { c with total_mentions := c.total_mentions - x } else c),
    ∃ c ∈ l, c3.canonical_id = c.canonical_id ∧
      ((c.canonical_id = tgt ∧ c3.total_mentions = c.total_mentions + x) ∨
       (c.canonical_id = s ∧ c3.total_mentions = c.total_mentions - x) ∨
       (¬c.canonical_id = tgt ∧ ¬c.canonical_id = s ∧
         c3.total_mentions = c.total_mentions)) := by
  intro c3 hc3
  rcases List.mem_map.mp hc3 with ⟨c1, hc1, hc3eq⟩
  rcases List.mem_map.mp hc1 with ⟨c, hc, hc1eq⟩
  subst hc1eq
  subst hc3eq
  by_cases h1 : c.canonical_id = tgt
  · have hns : ¬c.canonical_id = s := fun h => hst (h.symm.trans h1)
    rw [if_pos h1]
    dsimp only
    rw [if_neg hns]
    exact ⟨c, hc, rfl, Or.inl ⟨h1, rfl⟩⟩
  · by_cases h2 : c.canonical_id = s
    · rw [if_neg h1, if_pos h2]
      exact ⟨c, hc, rfl, Or.inr (Or.inl ⟨h2, rfl⟩)⟩
    · rw [if_neg h1, if_neg h2]
      exact ⟨c, hc, rfl, Or.inr (Or.inr ⟨h1, h2, rfl⟩)⟩

theorem merge_preserves_inv (db : DB) (src tgt : ℕ) (method : String) (conf : ℚ)
    (mb : String) (hInv : Inv db)
    (htgt : tgt ∈ db.canonical_entities.map (fun c => c.canonical_id)) :
    Inv (merge_entities db src tgt method conf mb).1 := by
  rcases hfind : db.entity_aliases.find? (fun a => a.entity_id == src) with _ | cur
  · unfold merge_entities
    rw [hfind]
    exact hInv
  · by_cases hsame : cur.canonical_id = tgt
    · unfold merge_entities
      rw [hfind]
      dsimp only
      rw [if_pos hsame]
      exact hInv
    · have hcureid : cur.entity_id = src := by
        have h := List.find?_some hfind
        rwa [beq_iff_eq] at h
      have hcurmem : cur ∈ db.entity_aliases := List.mem_of_find?_eq_some hfind
      have hsrcment : src ∈ db.entities.map (fun e => e.entity_id) := by
        rw [← hInv.aliasEids, ← hcureid]
        exact List.mem_map_of_mem _ hcurmem
      rcases List.mem_map.mp hsrcment with ⟨se0, hse0, hse0id⟩
      have hfind2 : db.entities.find? (fun e => e.entity_id == src) = some se0 := by
        rw [← hse0id]
        exact find?_entity_eq db.entities hInv.nodupEnt se0 hse0
      unfold merge_entities
      rw [hfind]
      dsimp only
      rw [if_neg hsame, hfind2]
      dsimp only
      set A' := updateAliasRow db.entity_aliases src tgt method conf mb with hA'
      obtain ⟨l1, l2, hsplit⟩ := List.append_of_mem hcurmem
      have hAnodup : (db.entity_aliases.map (fun a => a.entity_id)).Nodup := by
        rw [hInv.aliasEids]
        exact hInv.nodupEnt
      have hd1 : ∀ b ∈ l1, b.entity_id ≠ src := by
        rw [hsplit, List.map_append, List.map_cons] at hAnodup
        rcases List.nodup_append.mp hAnodup with ⟨-, -, hdj⟩
        intro b hb hbeid
        refine hdj (List.mem_map_of_mem _ hb) ?_
        rw [hbeid, ← hcureid]
        exact List.mem_cons_self _ _
      have hd2 : ∀ b ∈ l2, b.entity_id ≠ src := by
        rw [hsplit, List.map_append, List.map_cons] at hAnodup
        rcases List.nodup_append.mp hAnodup with ⟨-, hn2, -⟩
        intro b hb hbeid
        have hnotin := (List.nodup_cons.mp hn2).1
        rw [hcureid] at hnotin
        apply hnotin
        rw [← hbeid]
        exact List.mem_map_of_mem _ hb
      have hupd : A' = l1 ++ { cur with
          canonical_id := tgt, is_canonical := false, merge_method := method,
          merge_confidence := conf, merged_by := mb } :: l2 := by
        rw [hA', hsplit]
        exact updateAliasRow_eq src tgt method conf mb l1 l2 cur hcureid hd1 hd2
      have hx : occOf db src = se0.occurrence_count := by
        rw [← hse0id]
        exact occOf_eq hInv.nodupEnt hse0
      have hms : ∀ k, aliasOccSum db A' k
          = aliasOccSum db db.entity_aliases k
            + (if tgt = k then se0.occurrence_count else 0)
            - (if cur.canonical_id = k then se0.occurrence_count else 0) := by
        intro k
        rw [hupd]
        conv_rhs => rw [hsplit]
        rw [aliasOccSum_append, aliasOccSum_cons, aliasOccSum_append, aliasOccSum_cons]
        dsimp only
        rw [hcureid, hx]
        by_cases h1 : tgt = k <;> by_cases h2 : cur.canonical_id = k <;>
          simp [h1, h2] <;> ring
      have hcid2 : ((db.canonical_entities.map (fun c =>
            if c.canonical_id = tgt then
              { c with total_mentions := c.total_mentions + se0.occurrence_count }
            else c)).map (fun c =>
            if c.canonical_id = cur.canonical_id then
              { c with total_mentions := c.total_mentions - se0.occurrence_count }
            else c)).map (fun c => c.canonical_id)
          = db.canonical_entities.map (fun c => c.canonical_id) := by
        rw [canonMap_cid _ _ (fun c => by
          by_cases h : c.canonical_id = cur.canonical_id <;> simp [h])]
        rw [canonMap_cid _ _ (fun c => by
          by_cases h : c.canonical_id = tgt <;> simp [h])]
      refine ⟨?_, ?_, ?_, ?_, ?_⟩
      · dsimp only
        split_ifs with hrem
        · apply List.Nodup.sublist (List.Sublist.map _ (List.filter_sublist _))
          rw [hcid2]
          exact hInv.nodupCanon
        · rw [hcid2]
          exact hInv.nodupCanon
      · dsimp only
        rw [hA', updateAliasRow_map_eid, hInv.aliasEids]
      · exact hInv.nodupEnt
      · dsimp only
        intro c3 hc3
        have hmsR : ∀ (k : ℕ) (C : List CanonicalRow),
            mentionSum { entities := db.entities, canonical_entities := C,
                         entity_aliases := A' } k = aliasOccSum db A' k := by
          intro k C
          rw [mentionSum_eq_aliasOccSum]
          exact aliasOccSum_congr rfl A' k
        rw [hmsR, hms]
        by_cases hrem : (A'.filter (fun a => a.canonical_id == cur.canonical_id)).length = 0
        · rw [if_pos hrem] at hc3
          have hc3ne : ¬c3.canonical_id = cur.canonical_id := by
            have h := (List.mem_filter.mp hc3).2
            rwa [bne_iff_ne] at h
          have hc3mem := List.mem_of_mem_filter hc3
          rcases canon_update_mem db.canonical_entities tgt cur.canonical_id
            se0.occurrence_count hsame c3 hc3mem with ⟨c, hc, hcid, hcase⟩
          have htot := hInv.totals c hc
          rw [mentionSum_eq_aliasOccSum] at htot
          rw [hcid]
          rcases hcase with ⟨h1, h2⟩ | ⟨h1, h2⟩ | ⟨h1a, h1b, h2⟩
          · rw [h2, htot, h1, if_pos rfl, if_neg hsame]
            ring
          · exact absurd (hcid.trans h1) hc3ne
          · rw [h2, htot, if_neg (fun h => h1a h.symm), if_neg (fun h => h1b h.symm)]
            ring
        · rw [if_neg hrem] at hc3
          rcases canon_update_mem db.canonical_entities tgt cur.canonical_id
            se0.occurrence_count hsame c3 hc3 with ⟨c, hc, hcid, hcase⟩
          have htot := hInv.totals c hc
          rw [mentionSum_eq_aliasOccSum] at htot
          rw [hcid]
          rcases hcase with ⟨h1, h2⟩ | ⟨h1, h2⟩ | ⟨h1a, h1b, h2⟩
          · rw [h2, htot, h1, if_pos rfl, if_neg hsame]
            ring
          · rw [h2, htot, h1, if_neg (fun h => hsame h.symm), if_pos rfl]
            ring
          · rw [h2, htot, if_neg (fun h => h1a h.symm), if_neg (fun h => h1b h.symm)]
            ring
      · dsimp only
        intro a ha
        have haold : a ∈ db.entity_aliases ∨ a = { cur with
            canonical_id := tgt, is_canonical := false, merge_method := method,
            merge_confidence := conf, merged_by := mb } := by
          rw [hupd] at ha
          rcases List.mem_append.mp ha with h | h
          · refine Or.inl ?_
            rw [hsplit]
            exact List.mem_append.mpr (Or.inl h)
          · rcases List.mem_cons.mp h with h | h
            · exact Or.inr h
            · refine Or.inl ?_
              rw [hsplit]
              exact List.mem_append.mpr (Or.inr (List.mem_cons_of_mem _ h))
        have hacid : a.canonical_id ∈ db.canonical_entities.map (fun c => c.canonical_id) := by
          rcases haold with h | h
          · exact hInv.aliasLive a h
          · rw [h]
            exact htgt
        split_ifs with hrem
        · have hane : ¬a.canonical_id = cur.canonical_id := by
            have hfilnil : A'.filter (fun x => x.canonical_id == cur.canonical_id) = [] :=
              List.length_eq_zero.mp hrem
            have h := List.filter_eq_nil_iff.mp hfilnil a ha
            rw [beq_iff_eq] at h
            exact h
          rw [← hcid2] at hacid
          rcases List.mem_map.mp hacid with ⟨c2, hc2, hc2cid⟩
          rw [← hc2cid]
          apply List.mem_map_of_mem
          apply List.mem_filter.mpr
          refine ⟨hc2, ?_⟩
          rw [bne_iff_ne, hc2cid]
          exact hane
        · rw [hcid2]
          exact hacid

/-- The invariant survives any valid-target call sequence. -/
theorem applyMerges_inv :
    ∀ (calls : List MergeCall) (db : DB), Inv db → validTargets db calls = true →
    Inv (applyMerges db calls) := by
  intro calls
  induction calls with
  | nil =>
    intro db h _
    exact h
  | cons c cs ih =>
    intro db h hv
    rw [applyMerges]
    rw [validTargets, Bool.and_eq_true] at hv
    have htg : c.target_canonical_id
        ∈ db.canonical_entities.map (fun x => x.canonical_id) := by
      simpa using hv.1
    exact ih _ (merge_preserves_inv db c.source_entity_id c.target_canonical_id
      c.method c.confidence c.merged_by h htg) hv.2

/-- C1, counterexample: a single `merge_entities` call whose target
canonical id does not exist silently decrements the source canonical (and
orphan-deletes it) without crediting any target — the live mention total
drops below the occurrence total, so conservation does not hold for
arbitrary call sequences. -/
theorem c1_counterexample :
    liveMentionSum (applyMerges
        (initialize_canonical_entities [⟨1, "A", "person", "a", 5⟩])
        [⟨1, 2, "manual", 1, "user"⟩])
      ≠ occurrenceSum (applyMerges
        (initialize_canonical_entities [⟨1, "A", "person", "a", 5⟩])
        [⟨1, 2, "manual", 1, "user"⟩]) := by
  decide

/-- C1, amended: starting from the initialized 1:1 state (with unique
entity ids), after every sequence of `merge_entities` calls in which each
call's target canonical id is live at the moment the call executes, the
sum of `total_mentions` over all live canonical entities equals the sum of
`occurrence_count` over all entities. -/
theorem c1_conservation_amended :
    ∀ (entities : List EntityRow) (calls : List MergeCall),
    (entities.map (fun e => e.entity_id)).Nodup →
    validTargets (initialize_canonical_entities entities) calls = true →
    liveMentionSum (applyMerges (initialize_canonical_entities entities) calls)
      = occurrenceSum (applyMerges (initialize_canonical_entities entities) calls) := by
  intro entities calls hnd hv
  exact liveMentionSum_eq_occurrenceSum
    (applyMerges_inv calls (initialize_canonical_entities entities)
      (init_inv entities hnd) hv)

/-- C1, witness: a concrete two-entity corpus and one valid merge (entity
1 into the live canonical 2) conserve the mention total. -/
theorem c1_witness :
    liveMentionSum (applyMerges
        (initialize_canonical_entities
          [⟨1, "A", "person", "a", 5⟩, ⟨2, "B", "person", "b", 3⟩])
        [⟨1, 2, "auto", 1, "auto_merge_script"⟩])
      = occurrenceSum (applyMerges
        (initialize_canonical_entities
          [⟨1, "A", "person", "a", 5⟩, ⟨2, "B", "person", "b", 3⟩])
        [⟨1, 2, "auto", 1, "auto_merge_script"⟩]) :=
  c1_conservation_amended
    [⟨1, "A", "person", "a", 5⟩, ⟨2, "B", "person", "b", 3⟩]
    [⟨1, 2, "auto", 1, "auto_merge_script"⟩] (by decide) (by decide)

end UnsealedNetworks
